import Mathlib

/-!
Verification of the jsonmsg spec compiler: the spec-document parser
(`Parse`, `resolvePointerToSchema`, `goNameFromStrings`, `JSONSpec` from
jsonmsg.go) and the message-processing logic of the generated Go HTTP
server (the `processMessage` closure of `httpHandlerTemplate` in
golang/server.go).

Modelling conventions:
- `encoding/json` is external: the parser is modelled on the already
  decoded document value (`RawDoc`), and a byte-level envelope that fails
  `json.Unmarshal` is modelled as `none`.
- The external jsonschema index is a finite association list from JSON
  pointer strings to opaque schema nodes.
- Go strings are modelled as Lean `String`; `strings.Title` is modelled on
  its ASCII fragment (`unicode.ToTitle` = subtract 32 on a..z, and the
  ASCII `isSeparator`: digits, letters and underscore are non-separators).
- Character classes are written with numeric code points (123 `{`, 125 `}`,
  45 `-`, 95 `_`) to keep the definitions purely arithmetic.
-/

namespace Jsonmsg

/-- The punctuation set stripped by `goNameFromStrings`:
`regexp.MustCompile("{|}|-|_")`, i.e. code points 123, 125, 45, 95. -/
def isStripChar (c : Char) : Bool :=
  if c.toNat = 123 ∨ c.toNat = 125 ∨ c.toNat = 45 ∨ c.toNat = 95 then true else false

/-- `re.ReplaceAllString(p, "")`: delete every occurrence of the stripped
punctuation set from the string. -/
def stripPunct (s : String) : String :=
  String.mk (s.data.filter (fun c => !isStripChar c))

/-- ASCII fragment of Go `unicode.ToTitle` as used by `strings.Title`:
a lowercase ASCII letter is mapped 32 code points down, everything else is
unchanged. -/
def upChar (c : Char) : Char :=
  if 97 ≤ c.toNat ∧ c.toNat ≤ 122 then Char.ofNat (c.toNat - 32) else c

/-- ASCII fragment of the `isSeparator` predicate of Go `strings.Title`:
digits, ASCII letters and underscore are not separators, every other
character is. -/
def goIsSep (c : Char) : Bool :=
  if (48 ≤ c.toNat ∧ c.toNat ≤ 57) ∨ (97 ≤ c.toNat ∧ c.toNat ≤ 122) ∨
     (65 ≤ c.toNat ∧ c.toNat ≤ 90) ∨ c.toNat = 95 then false else true

/-- The character stream of Go `strings.Title`: a character is title-cased
exactly when the previous character was a separator (the start of the
string counts as a separator). -/
def titleChars : Bool → List Char → List Char
  | _, [] => []
  | sep, c :: cs => (if sep then upChar c else c) :: titleChars (goIsSep c) cs

/-- Go `strings.Title` (ASCII fragment). -/
def stringsTitle (s : String) : String :=
  String.mk (titleChars true s.data)

/-- One iteration of the loop body of `goNameFromStrings`: strip the
punctuation set, then switch on the exact stripped string (`case "id"`,
`case "url"`, `case "api"`), defaulting to `strings.Title`. -/
def goNameToken (p : String) : String :=
  if stripPunct p = "id" then "ID"
  else if stripPunct p = "url" then "URL"
  else if stripPunct p = "api" then "API"
  else stringsTitle (stripPunct p)

/-- jsonmsg.go `goNameFromStrings`: concatenate the processed parts onto
the empty string. -/
def goNameFromStrings (parts : List String) : String :=
  parts.foldl (fun name p => name ++ goNameToken p) ""

/-- Modelled from the amended wording of the identifier-normalizer
sentence: strip the punctuation set, compare the stripped token
case-sensitively (exact match) against the override table of lowercase
tokens, otherwise title-case. Defined independently of `goNameFromStrings`
to state the refinement. -/
def normalizeAmendedSpec (parts : List String) : String :=
  parts.foldl
    (fun name p =>
      name ++
        (if stripPunct p = "id" then "ID"
         else if stripPunct p = "url" then "URL"
         else if stripPunct p = "api" then "API"
         else stringsTitle (stripPunct p)))
    ""

/-- Opaque node of the external jsonschema index. -/
structure SchemaNode where
  id : Nat
deriving DecidableEq, Repr

/-- The external jsonschema index: JSON pointer string to schema node. -/
def Index := List (String × SchemaNode)

instance : DecidableEq Index := inferInstanceAs (DecidableEq (List (String × SchemaNode)))

/-- jsonmsg.go `resolvePointerToSchema`: the empty pointer resolves to no
schema without error; a non-empty pointer absent from the index is an
error carrying the pointer; a present pointer resolves to its node. -/
def resolvePointerToSchema (p : String) (idx : Index) : Except String (Option SchemaNode) :=
  if p = "" then .ok none
  else
    match idx.lookup p with
    | none => .error ("jsonmsg: " ++ p ++ " does not exist in index")
    | some s => .ok (some s)

/-- A message as decoded from the raw document by `json.Unmarshal`
(the fields `Title`, `Description`, `In`, `Outs`, `Group` of the Go
`Message` struct; absent JSON fields decode to the zero value). -/
structure RawMsg where
  Title : String := ""
  Description : String := ""
  In : String := ""
  Outs : List String := []
  Group : String := ""
deriving DecidableEq, Repr

/-- The decoded spec document handed to `Parse` (`json.Unmarshal` of the
raw bytes is external): endpoints as protocol/URL pairs, messages as
key/body pairs, and the definitions index produced by `jsonschema.Parse`
on the same bytes. -/
structure RawDoc where
  Title : String := ""
  Description : String := ""
  Endpoints : List (String × String) := []
  Messages : List (String × RawMsg) := []
  Definitions : List (String × SchemaNode) := []
deriving DecidableEq, Repr

/-- The fully resolved Go `Message` struct as built by `Parse`. The Go
back-pointer `Spec *Spec` is cyclic and is modelled observationally by
the one thing read through it (`m.Spec.Definitions`, used by
`NewInstance`): the owning spec's definitions index, stored in
`SpecDefs`. -/
structure Message where
  Title : String
  Description : String
  Msg : String
  Name : String
  In : String
  Outs : List String
  InSchema : Option SchemaNode
  OutSchemas : List (Option SchemaNode)
  SpecDefs : List (String × SchemaNode)
  Group : String
deriving DecidableEq, Repr

/-- Sequential effectful map with early error return, as in the Go
`for ... { if err != nil { return nil, err } }` loops of `Parse`. -/
def mapExcept (f : α → Except ε β) : List α → Except ε (List β)
  | [] => .ok []
  | a :: as =>
    match f a with
    | .error e => .error e
    | .ok b =>
      match mapExcept f as with
      | .error e => .error e
      | .ok bs => .ok (b :: bs)

/-- The per-message body of the `Parse` loop: set `Msg`, `Name` and the
spec back-reference, resolve the input pointer, and resolve every output
pointer in declared order into `OutSchemas`; the first resolution failure
aborts. -/
def buildMessage (idx : List (String × SchemaNode)) (k : String) (rm : RawMsg) :
    Except String Message :=
  match resolvePointerToSchema rm.In idx with
  | .error e => .error e
  | .ok inS =>
    match mapExcept (fun p => resolvePointerToSchema p idx) rm.Outs with
    | .error e => .error e
    | .ok outSs =>
      .ok { Title := rm.Title, Description := rm.Description, Msg := k,
            Name := goNameFromStrings [k], In := rm.In, Outs := rm.Outs,
            InSchema := inS, OutSchemas := outSs, SpecDefs := idx,
            Group := rm.Group }

/-- The message table built by `Parse`, keyed as in the document. -/
def buildMessages (idx : List (String × SchemaNode)) (msgs : List (String × RawMsg)) :
    Except String (List (String × Message)) :=
  mapExcept (fun km =>
    match buildMessage idx km.1 km.2 with
    | .error e => .error e
    | .ok m => .ok (km.1, m)) msgs

/-- One step of populating `spec.GroupedMessages`: ensure the bucket for
group `g` exists and put `(k, m)` into it. -/
def insertGrouped (gm : List (String × List (String × Message))) (g k : String)
    (m : Message) : List (String × List (String × Message)) :=
  match gm with
  | [] => [(g, [(k, m)])]
  | (g', ms) :: rest =>
    if g' = g then (g', ms ++ [(k, m)]) :: rest
    else (g', ms) :: insertGrouped rest g k m

/-- `spec.GroupedMessages` built over the whole message table. -/
def buildGrouped (msgs : List (String × Message)) : List (String × List (String × Message)) :=
  msgs.foldl (fun gm km => insertGrouped gm km.2.Group km.1 km.2) []

/-- `spec.GroupedMessages[g][k]`. -/
def lookupGrouped (gm : List (String × List (String × Message))) (g k : String) :
    Option Message :=
  match gm.lookup g with
  | some ms => ms.lookup k
  | none => none

/-- The fully resolved Go `Spec` struct. `Raw` holds the document the
original bytes decode to: the bytes are retained verbatim before the
endpoint paths are rewritten. -/
structure Spec where
  Title : String
  Description : String
  Endpoints : List (String × String)
  Messages : List (String × Message)
  GroupedMessages : List (String × List (String × Message))
  Definitions : List (String × SchemaNode)
  Raw : RawDoc
deriving DecidableEq, Repr

/-- jsonmsg.go `Parse` on the decoded document: retain the raw document,
append `"/" ++ protocol` to every endpoint URL, resolve every message, and
build the group index. A pointer-resolution failure aborts the whole
parse. -/
def Parse (doc : RawDoc) : Except String Spec :=
  match buildMessages doc.Definitions doc.Messages with
  | .error e => .error e
  | .ok msgs =>
    .ok { Title := doc.Title, Description := doc.Description,
          Endpoints := doc.Endpoints.map (fun ku => (ku.1, ku.2 ++ "/" ++ ku.1)),
          Messages := msgs,
          GroupedMessages := buildGrouped msgs,
          Definitions := doc.Definitions,
          Raw := doc }

/-- A key is absent from every bucket of a group index. -/
def freshKey (gm : List (String × List (String × Message))) (k : String) : Prop :=
  ∀ g ms, (g, ms) ∈ gm → ms.lookup k = none

/-- A small concrete definitions index (witness data). -/
def exampleIndex : Index :=
  [("#/definitions/credentials", ⟨1⟩), ("#/definitions/session", ⟨2⟩)]

/-- A small concrete document that parses successfully (witness data). -/
def exampleDoc : RawDoc :=
  { Endpoints := [("http", "http://api.specc.io/v1")],
    Messages := [("loginWithCredentials",
      { In := "#/definitions/credentials", Outs := ["#/definitions/session"],
        Group := "login" })],
    Definitions := exampleIndex }

/-- The message `Parse` builds for `exampleDoc` (witness data). -/
def exampleMessage : Message :=
  { Title := "", Description := "", Msg := "loginWithCredentials",
    Name := "LoginWithCredentials", In := "#/definitions/credentials",
    Outs := ["#/definitions/session"], InSchema := some ⟨1⟩,
    OutSchemas := [some ⟨2⟩], SpecDefs := exampleIndex, Group := "login" }

/-- The spec `Parse` builds for `exampleDoc` (witness data). -/
def exampleSpec : Spec :=
  { Title := "", Description := "",
    Endpoints := [("http", "http://api.specc.io/v1/http")],
    Messages := [("loginWithCredentials", exampleMessage)],
    GroupedMessages := [("login", [("loginWithCredentials", exampleMessage)])],
    Definitions := exampleIndex, Raw := exampleDoc }

/-- A document with a dangling input pointer (witness data). -/
def exampleDanglingDoc : RawDoc :=
  { Messages := [("findUser", { In := "#/definitions/missing" })],
    Definitions := exampleIndex }

/-- jsonmsg.go `JSONSpec`: unmarshal the retained raw bytes and marshal
them back with stable indentation. `encoding/json` round-tripping is
external and value-preserving, so on the decoded-document level this is
the retained document itself. -/
def JSONSpec (s : Spec) : RawDoc := s.Raw

/-! ### The generated HTTP dispatcher (`processMessage` in `httpHandlerTemplate`)

The template is instantiated per message, so one generated `if` block per
declared message key. A message declaration is modelled by its key, by
whether it has an input schema, and by the wire names (`JSONName`) of its
output schemas in declared order. The host-side behaviour that the
generated code calls into (payload decoding, the `Validate` methods of the
generated types, and the user handler) is modelled by a `Handler` record:
the handler result is the `(outs, err)` pair, with the `XOuts` record as a
list of optional slots aligned with the declared outputs, and the error
carrying its `err.Error()` text. -/

/-- One declared message as seen by the generated dispatcher. -/
structure MsgDecl where
  key : String
  hasInput : Bool
  outNames : List String
deriving DecidableEq, Repr

/-- Host behaviour for one message invocation: whether `json.Unmarshal` of
the `data` field succeeds, the result of the input type's `Validate`
(`some reason` is a failure with that message text), the handler's
`(outs, err)` result, and each output type's `Validate` keyed by wire
name. -/
structure Handler (α : Type) where
  decodeOk : Bool
  inputValidation : Option String
  result : Except String (Option (List (Option α)))
  outValidation : String → α → Option String

/-- An outbound body: a `newValueMessage` envelope, a `newErrorMessage`
envelope (whose `msg` field is the literal `"error"`), or the literal
`nil` body returned for a no-output success. -/
inductive Response (α : Type) where
  | value (msg : String) (data : α)
  | errMsg (e : String)
  | empty
deriving DecidableEq, Repr

/-- `newValueMessage` / `newErrorMessage` envelopes both carry a `msg`
field; the `nil` body has none. -/
def Response.msgField {α : Type} : Response α → Option String
  | .value m _ => some m
  | .errMsg _ => some "error"
  | .empty => none

/-- `UnparsableRequestErrorMessage` of the generated helper. -/
def UnparsableRequestErrorMessage {α : Type} : Response α := .errMsg "unparsable message"

/-- `InternalErrorMessage` of the generated helper. -/
def InternalErrorMessage {α : Type} : Response α := .errMsg "internal error"

/-- `UnknownMessageErrorMessage` of the generated helper. -/
def UnknownMessageErrorMessage {α : Type} : Response α := .errMsg "unknown message"

/-- The decoded wire envelope. -/
structure Envelope (α : Type) where
  msg : String
  data : α
deriving DecidableEq, Repr

/-- The generated `// select the first non-nil out` scan: one `if
outs.X != nil` block per declared output, in declared order; the first
non-nil slot is validated and returned; the trailing
`// no outs and no error` case is an internal error. -/
def selectOut {α : Type} (valid : String → α → Option String) :
    List (String × Option α) → Response α × Nat
  | [] => (InternalErrorMessage, 500)
  | (n, some v) :: _ =>
    match valid n v with
    | some _ => (InternalErrorMessage, 500)
    | none => (Response.value n v, 200)
  | (_, none) :: rest => selectOut valid rest

/-- The generated dispatch block after the message key matched: invoke the
handler; a handler error is an internal error; with no declared outputs a
success is the `nil` body; otherwise a `nil` outs record is an internal
error and the slots are scanned in declared order. -/
def invokeStage {α : Type} (decl : MsgDecl) (h : Handler α) : Response α × Nat :=
  match h.result with
  | .error _ => (InternalErrorMessage, 500)
  | .ok outsRec =>
    match decl.outNames, outsRec with
    | [], _ => (Response.empty, 200)
    | _ :: _, none => (InternalErrorMessage, 500)
    | n :: ns, some slots => selectOut h.outValidation ((n :: ns).zip slots)

/-- The generated per-message block: for a message with an input schema,
decode the `data` payload (failure is an unparsable request) and run the
input type's `Validate` (failure answers with the validator's own message
text); then dispatch to the handler. -/
def dispatchMatched {α : Type} (decl : MsgDecl) (h : Handler α) : Response α × Nat :=
  if decl.hasInput then
    if !h.decodeOk then (UnparsableRequestErrorMessage, 422)
    else
      match h.inputValidation with
      | some reason => (Response.errMsg reason, 422)
      | none => invokeStage decl h
  else invokeStage decl h

/-- The `processMessage` closure of the generated `NewAPIMux`: an
unparsable envelope is a 422; the control message `fetchSpec` is answered
before any user message key is compared, with the embedded spec document;
then the declared message keys are compared in turn; no match is a 404.
`specData` models `json.RawMessage(newEmbeddedSpec())`. -/
def processMessage {α : Type} (decls : List MsgDecl) (handlers : String → Handler α)
    (specData : α) (parsed : Option (Envelope α)) : Response α × Nat :=
  match parsed with
  | none => (UnparsableRequestErrorMessage, 422)
  | some env =>
    if env.msg = "fetchSpec" then (Response.value "spec" specData, 200)
    else
      match decls.find? (fun d => d.key = env.msg) with
      | some d => dispatchMatched d (handlers env.msg)
      | none => (UnknownMessageErrorMessage, 404)

/-! ### Helper lemmas -/

theorem zipGet {α β : Type} : ∀ (l1 : List α) (l2 : List β) (i : Nat) (a : α) (b : β),
    l1.get? i = some a → l2.get? i = some b → (l1.zip l2).get? i = some (a, b)
  | x :: xs, y :: ys, 0, a, b, h1, h2 => by
    simp_all [List.get?]
  | x :: xs, y :: ys, i + 1, a, b, h1, h2 => by
    simp only [List.get?] at h1 h2
    simpa [List.zip, List.get?] using zipGet xs ys i a b h1 h2
  | [], _, i, a, b, h1, _ => by simp [List.get?] at h1
  | x :: xs, [], i, a, b, _, h2 => by cases i <;> simp [List.get?] at h2

theorem selectOut_first {α : Type} (valid : String → α → Option String) :
    ∀ (pairs : List (String × Option α)) (i : Nat) (n : String) (v : α),
      pairs.get? i = some (n, some v) →
      (∀ j, j < i → ∃ m, pairs.get? j = some (m, none)) →
      selectOut valid pairs =
        (match valid n v with
         | some _ => (InternalErrorMessage, 500)
         | none => (Response.value n v, 200))
  | [], i, n, v, hi, _ => by simp [List.get?] at hi
  | (m, slot) :: rest, 0, n, v, hi, _ => by
    simp only [List.get?] at hi
    obtain ⟨h1, h2⟩ := Prod.mk.injEq .. ▸ Option.some.injEq .. ▸ hi
    cases hi
    rfl
  | (m, slot) :: rest, i + 1, n, v, hi, hfirst => by
    obtain ⟨m0, hm0⟩ := hfirst 0 (Nat.succ_pos i)
    simp only [List.get?] at hi hm0
    cases hm0
    show selectOut valid rest = _
    exact selectOut_first valid rest i n v hi
      (fun j hj => by
        have := hfirst (j + 1) (Nat.succ_lt_succ hj)
        simpa [List.get?] using this)

theorem selectOut_allNone {α : Type} (valid : String → α → Option String) :
    ∀ (pairs : List (String × Option α)), (∀ q ∈ pairs, q.2 = none) →
      selectOut valid pairs = (InternalErrorMessage, 500)
  | [], _ => rfl
  | (m, slot) :: rest, h => by
    have h0 : slot = none := h (m, slot) (List.mem_cons_self ..)
    cases h0
    show selectOut valid rest = _
    exact selectOut_allNone valid rest (fun q hq => h q (List.mem_cons_of_mem _ hq))

/-- With the input stage passing (no input schema, or decode and
validation both succeeding), the per-message block reduces to the
handler-invocation stage. -/
theorem dispatchMatched_input_ok {α : Type} (decl : MsgDecl) (h : Handler α)
    (hin : decl.hasInput = true → h.decodeOk = true ∧ h.inputValidation = none) :
    dispatchMatched decl h = invokeStage decl h := by
  unfold dispatchMatched
  by_cases hip : decl.hasInput = true
  · obtain ⟨hd, hv⟩ := hin hip
    simp [hip, hd, hv]
  · simp [hip]

/-- A parsed envelope that is not the control message routes to the
matched declaration's block. -/
theorem processMessage_routes {α : Type} (decls : List MsgDecl)
    (handlers : String → Handler α) (specData : α) (env : Envelope α) (decl : MsgDecl)
    (hfs : env.msg ≠ "fetchSpec")
    (hfind : decls.find? (fun d => d.key = env.msg) = some decl) :
    processMessage decls handlers specData (some env) =
      dispatchMatched decl (handlers env.msg) := by
  simp only [processMessage, if_neg hfs, hfind]

theorem get?_isSome_of_lt {α : Type} {l : List α} {i j : Nat}
    (hij : j < i) (hi : ∃ a, l.get? i = some a) : ∃ b, l.get? j = some b := by
  obtain ⟨a, ha⟩ := hi
  have hlen : i < l.length := List.get?_eq_some.mp ha |>.1
  exact List.get?_eq_get (Nat.lt_trans hij hlen) ▸ ⟨_, rfl⟩

theorem invokeStage_error {α : Type} (decl : MsgDecl) (h : Handler α) (e : String)
    (hres : h.result = .error e) : invokeStage decl h = (InternalErrorMessage, 500) := by
  unfold invokeStage
  rw [hres]

theorem invokeStage_noOuts {α : Type} (decl : MsgDecl) (h : Handler α)
    (outsRec : Option (List (Option α))) (hns : decl.outNames = [])
    (hres : h.result = .ok outsRec) : invokeStage decl h = (Response.empty, 200) := by
  unfold invokeStage
  rw [hres, hns]

theorem invokeStage_nilRecord {α : Type} (decl : MsgDecl) (h : Handler α)
    (n0 : String) (ns : List String) (hns : decl.outNames = n0 :: ns)
    (hres : h.result = .ok none) : invokeStage decl h = (InternalErrorMessage, 500) := by
  unfold invokeStage
  rw [hres, hns]

theorem invokeStage_scan {α : Type} (decl : MsgDecl) (h : Handler α)
    (n0 : String) (ns : List String) (slots : List (Option α))
    (hns : decl.outNames = n0 :: ns) (hres : h.result = .ok (some slots)) :
    invokeStage decl h = selectOut h.outValidation ((n0 :: ns).zip slots) := by
  unfold invokeStage
  rw [hres, hns]

/-! ### Claims about the generated dispatcher -/

/-- C4: an envelope whose `msg` field is `"fetchSpec"` is intercepted
before any user-declared message key is matched, and always succeeds with
the envelope `(msg := "spec", data := the machine-readable spec document)`
and HTTP 200, for every declaration list, every handler assignment and
every `data` payload. -/
theorem claim4_fetchSpec_intercepted {α : Type} (decls : List MsgDecl)
    (handlers : String → Handler α) (specData : α) (env : Envelope α)
    (h : env.msg = "fetchSpec") :
    processMessage decls handlers specData (some env) =
      (Response.value "spec" specData, 200) := by
  simp [processMessage, h]

/-- C4 witness: a user message literally keyed `fetchSpec` whose handler
would answer with a populated output slot is still shadowed by the
intercept. -/
theorem claim4_fetchSpec_intercepted_witness :
    processMessage [⟨"fetchSpec", false, ["x"]⟩]
      (fun _ => ⟨true, none, .ok (some [some 7]), fun _ _ => none⟩) (42 : Nat)
      (some ⟨"fetchSpec", 0⟩) = (Response.value "spec" 42, 200) :=
  claim4_fetchSpec_intercepted _ _ _ _ rfl

/-- C1: for a matched message with declared outputs, when the input stage
passes and the handler returns a non-nil outs record, the generated scan
answers with the first output slot (in declared order) holding a non-nil
value, provided that output passes its own validation; every earlier slot
being nil and the equality of the answer to exactly slot `i` show a later
non-nil slot is never chosen. -/
theorem claim1_first_nonnil_output_selected {α : Type} (decls : List MsgDecl)
    (handlers : String → Handler α) (specData : α) (env : Envelope α)
    (decl : MsgDecl) (slots : List (Option α)) (i : Nat) (n : String) (v : α)
    (hfs : env.msg ≠ "fetchSpec")
    (hfind : decls.find? (fun d => d.key = env.msg) = some decl)
    (hin : decl.hasInput = true →
      (handlers env.msg).decodeOk = true ∧ (handlers env.msg).inputValidation = none)
    (hres : (handlers env.msg).result = .ok (some slots))
    (hname : decl.outNames.get? i = some n)
    (hslot : slots.get? i = some (some v))
    (hfirst : ∀ j, j < i → slots.get? j = some none)
    (hvalid : (handlers env.msg).outValidation n v = none) :
    processMessage decls handlers specData (some env) = (Response.value n v, 200) := by
  rw [processMessage_routes decls handlers specData env decl hfs hfind,
    dispatchMatched_input_ok _ _ hin]
  match hns : decl.outNames, hname with
  | n0 :: ns, hname =>
    rw [invokeStage_scan decl (handlers env.msg) n0 ns slots hns hres]
    have hzip : ((n0 :: ns).zip slots).get? i = some (n, some v) :=
      zipGet _ _ _ _ _ hname hslot
    have hbefore : ∀ j, j < i → ∃ m, ((n0 :: ns).zip slots).get? j = some (m, none) := by
      intro j hj
      obtain ⟨m, hm⟩ := get?_isSome_of_lt (l := n0 :: ns) hj ⟨n, hname⟩
      exact ⟨m, zipGet _ _ _ _ _ hm (hfirst j hj)⟩
    rw [selectOut_first _ _ i n v hzip hbefore, hvalid]

/-- C1 witness: two declared outputs, both slots populated; the first is
chosen. -/
theorem claim1_first_nonnil_output_selected_witness :
    processMessage [⟨"loginWithCredentials", true, ["session", "error"]⟩]
      (fun _ => ⟨true, none, .ok (some [some 1, some 2]), fun _ _ => none⟩) (0 : Nat)
      (some ⟨"loginWithCredentials", 9⟩) = (Response.value "session" 1, 200) :=
  claim1_first_nonnil_output_selected
    [⟨"loginWithCredentials", true, ["session", "error"]⟩]
    (fun _ => ⟨true, none, .ok (some [some 1, some 2]), fun _ _ => none⟩) 0
    ⟨"loginWithCredentials", 9⟩ ⟨"loginWithCredentials", true, ["session", "error"]⟩
    [some 1, some 2] 0 "session" 1
    (by decide) (by decide) (fun _ => ⟨rfl, rfl⟩) rfl rfl rfl
    (fun j hj => absurd hj (Nat.not_lt_zero j)) rfl

/-- C2: for a matched message with declared outputs, when the input stage
passes and the handler raises no error but returns a nil outs record, or a
record in which every slot is nil, the dispatcher answers with the generic
internal-error envelope and HTTP 500. -/
theorem claim2_contract_violation_internal_error {α : Type} (decls : List MsgDecl)
    (handlers : String → Handler α) (specData : α) (env : Envelope α)
    (decl : MsgDecl) (outsRec : Option (List (Option α)))
    (hfs : env.msg ≠ "fetchSpec")
    (hfind : decls.find? (fun d => d.key = env.msg) = some decl)
    (hin : decl.hasInput = true →
      (handlers env.msg).decodeOk = true ∧ (handlers env.msg).inputValidation = none)
    (houts : decl.outNames ≠ [])
    (hres : (handlers env.msg).result = .ok outsRec)
    (hrec : outsRec = none ∨ ∀ slots, outsRec = some slots → ∀ s ∈ slots, s = none) :
    processMessage decls handlers specData (some env) = (InternalErrorMessage, 500) := by
  rw [processMessage_routes decls handlers specData env decl hfs hfind,
    dispatchMatched_input_ok _ _ hin]
  match hns : decl.outNames, houts with
  | n0 :: ns, _ =>
    match outsRec, hrec, hres with
    | none, _, hres => exact invokeStage_nilRecord decl _ n0 ns hns hres
    | some slots, hrec, hres =>
      rw [invokeStage_scan decl (handlers env.msg) n0 ns slots hns hres]
      have hall : ∀ s ∈ slots, s = none := by
        rcases hrec with h | h
        · exact absurd h (by simp)
        · exact h slots rfl
      exact selectOut_allNone _ _ (fun q hq => hall q.2 (List.of_mem_zip hq).2)

/-- C2 witness: a handler returning a nil record, and one returning an
all-nil record, both yield the internal error at 500. -/
theorem claim2_contract_violation_internal_error_witness :
    processMessage [⟨"logout", true, ["message"]⟩]
      (fun _ => ⟨true, none, .ok none, fun _ _ => none⟩) (0 : Nat)
      (some ⟨"logout", 5⟩) = (InternalErrorMessage, 500) ∧
    processMessage [⟨"logout", true, ["message"]⟩]
      (fun _ => ⟨true, none, .ok (some [none]), fun _ _ => none⟩) (0 : Nat)
      (some ⟨"logout", 5⟩) = (InternalErrorMessage, 500) :=
  ⟨claim2_contract_violation_internal_error [⟨"logout", true, ["message"]⟩]
      (fun _ => ⟨true, none, .ok none, fun _ _ => none⟩) 0 ⟨"logout", 5⟩
      ⟨"logout", true, ["message"]⟩ none (by decide) (by decide)
      (fun _ => ⟨rfl, rfl⟩) (by decide) rfl (Or.inl rfl),
   claim2_contract_violation_internal_error [⟨"logout", true, ["message"]⟩]
      (fun _ => ⟨true, none, .ok (some [none]), fun _ _ => none⟩) 0 ⟨"logout", 5⟩
      ⟨"logout", true, ["message"]⟩ (some [none]) (by decide) (by decide)
      (fun _ => ⟨rfl, rfl⟩) (by decide) rfl
      (Or.inr (fun slots hs => by cases hs; intro s hsm; simpa using hsm))⟩

/-- C5: error-detail exposure is asymmetric. An input-validation failure
answers with the validator's own reason text (client error, 422); a
handler error, a handler-contract violation, or the chosen output failing
its own validation all answer with the fixed generic internal-error
envelope (500), whose text is the constant `"internal error"` independent
of the underlying detail strings `e` and `r`. -/
theorem claim5_error_detail_asymmetry {α : Type} :
    (∀ (decl : MsgDecl) (h : Handler α) (reason : String),
      decl.hasInput = true → h.decodeOk = true → h.inputValidation = some reason →
      dispatchMatched decl h = (Response.errMsg reason, 422)) ∧
    (∀ (decl : MsgDecl) (h : Handler α) (e : String),
      (decl.hasInput = true → h.decodeOk = true ∧ h.inputValidation = none) →
      h.result = .error e →
      dispatchMatched decl h = (InternalErrorMessage, 500)) ∧
    (∀ (decl : MsgDecl) (h : Handler α) (outsRec : Option (List (Option α))),
      (decl.hasInput = true → h.decodeOk = true ∧ h.inputValidation = none) →
      decl.outNames ≠ [] → h.result = .ok outsRec →
      (outsRec = none ∨ ∀ slots, outsRec = some slots → ∀ s ∈ slots, s = none) →
      dispatchMatched decl h = (InternalErrorMessage, 500)) ∧
    (∀ (decl : MsgDecl) (h : Handler α) (slots : List (Option α)) (i : Nat)
      (n : String) (v : α) (r : String),
      (decl.hasInput = true → h.decodeOk = true ∧ h.inputValidation = none) →
      h.result = .ok (some slots) →
      decl.outNames.get? i = some n → slots.get? i = some (some v) →
      (∀ j, j < i → slots.get? j = some none) →
      h.outValidation n v = some r →
      dispatchMatched decl h = (InternalErrorMessage, 500)) := by
  refine ⟨?_, ?_, ?_, ?_⟩
  · intro decl h reason hip hd hv
    unfold dispatchMatched
    simp [hip, hd, hv]
  · intro decl h e hin hres
    rw [dispatchMatched_input_ok _ _ hin]
    exact invokeStage_error decl h e hres
  · intro decl h outsRec hin houts hres hrec
    rw [dispatchMatched_input_ok _ _ hin]
    match hns : decl.outNames, houts with
    | n0 :: ns, _ =>
      match outsRec, hrec, hres with
      | none, _, hres => exact invokeStage_nilRecord decl h n0 ns hns hres
      | some slots, hrec, hres =>
        rw [invokeStage_scan decl h n0 ns slots hns hres]
        have hall : ∀ s ∈ slots, s = none := by
          rcases hrec with hx | hx
          · exact absurd hx (by simp)
          · exact hx slots rfl
        exact selectOut_allNone _ _ (fun q hq => hall q.2 (List.of_mem_zip hq).2)
  · intro decl h slots i n v r hin hres hname hslot hfirst hvalid
    rw [dispatchMatched_input_ok _ _ hin]
    match hns : decl.outNames, hname with
    | n0 :: ns, hname =>
      rw [invokeStage_scan decl h n0 ns slots hns hres]
      have hzip : ((n0 :: ns).zip slots).get? i = some (n, some v) :=
        zipGet _ _ _ _ _ hname hslot
      have hbefore : ∀ j, j < i → ∃ m, ((n0 :: ns).zip slots).get? j = some (m, none) := by
        intro j hj
        obtain ⟨m, hm⟩ := get?_isSome_of_lt (l := n0 :: ns) hj ⟨n, hname⟩
        exact ⟨m, zipGet _ _ _ _ _ hm (hfirst j hj)⟩
      rw [selectOut_first _ _ i n v hzip hbefore, hvalid]

/-- C5 witness: the validator's reason `"invalid message: missing message"`
is echoed at 422; a handler error with detail `"boom"` and an output
validation failure with detail `"bad out"` both answer with the constant
internal-error envelope. -/
theorem claim5_error_detail_asymmetry_witness :
    dispatchMatched ⟨"sayHello", true, ["message"]⟩
      (⟨true, some "invalid message: missing message", .ok none, fun _ _ => none⟩ :
        Handler Nat) = (Response.errMsg "invalid message: missing message", 422) ∧
    dispatchMatched ⟨"sayHello", true, ["message"]⟩
      (⟨true, none, .error "boom", fun _ _ => none⟩ : Handler Nat) =
      (InternalErrorMessage, 500) ∧
    dispatchMatched ⟨"sayHello", true, ["message"]⟩
      (⟨true, none, .ok (some [some 3]), fun _ _ => some "bad out"⟩ : Handler Nat) =
      (InternalErrorMessage, 500) :=
  ⟨claim5_error_detail_asymmetry.1 _ _ _ rfl rfl rfl,
   claim5_error_detail_asymmetry.2.1 _ _ "boom" (fun _ => ⟨rfl, rfl⟩) rfl,
   claim5_error_detail_asymmetry.2.2.2 _ _ [some 3] 0 "message" 3 "bad out"
     (fun _ => ⟨rfl, rfl⟩) rfl rfl rfl (fun j hj => absurd hj (Nat.not_lt_zero j)) rfl⟩

/-- C9 counterexample: a message with an empty declared outputs list whose
handler succeeds is answered with the literal nil body at 200: the
response has no `msg` field at all, so it is not an envelope carrying an
"ok" sentinel. -/
theorem claim9_counterexample :
    processMessage [⟨"subscribeEmpty", false, []⟩]
      (fun _ => ⟨true, none, .ok none, fun _ _ => none⟩) (0 : Nat)
      (some ⟨"subscribeEmpty", 0⟩) = (Response.empty, 200) ∧
    (Response.empty : Response Nat).msgField = none := by
  exact ⟨rfl, rfl⟩

/-- C9 as amended: for a matched message with an empty declared outputs
list, a successful invocation answers HTTP 200 with the literal nil body:
no envelope is produced, hence no `msg` field and no `data` field. -/
theorem claim9_no_output_success_nil_body {α : Type} (decls : List MsgDecl)
    (handlers : String → Handler α) (specData : α) (env : Envelope α)
    (decl : MsgDecl) (outsRec : Option (List (Option α)))
    (hfs : env.msg ≠ "fetchSpec")
    (hfind : decls.find? (fun d => d.key = env.msg) = some decl)
    (hin : decl.hasInput = true →
      (handlers env.msg).decodeOk = true ∧ (handlers env.msg).inputValidation = none)
    (houts : decl.outNames = [])
    (hres : (handlers env.msg).result = .ok outsRec) :
    processMessage decls handlers specData (some env) = (Response.empty, 200) := by
  rw [processMessage_routes decls handlers specData env decl hfs hfind,
    dispatchMatched_input_ok _ _ hin]
  exact invokeStage_noOuts decl _ outsRec houts hres

/-- C9 amended-claim witness. -/
theorem claim9_no_output_success_nil_body_witness :
    processMessage [⟨"subscribeInOnly", true, []⟩]
      (fun _ => ⟨true, none, .ok none, fun _ _ => none⟩) (0 : Nat)
      (some ⟨"subscribeInOnly", 1⟩) = (Response.empty, 200) :=
  claim9_no_output_success_nil_body [⟨"subscribeInOnly", true, []⟩]
    (fun _ => ⟨true, none, .ok none, fun _ _ => none⟩) 0 ⟨"subscribeInOnly", 1⟩
    ⟨"subscribeInOnly", true, []⟩ none (by decide) (by decide)
    (fun _ => ⟨rfl, rfl⟩) rfl rfl

/-! ### Lemmas about the identifier normalizer -/

theorem charOfNat_toNat (n : Nat) (h : n.isValidChar) : (Char.ofNat n).toNat = n := by
  simp [Char.ofNat, h, Char.toNat, Char.ofNatAux, UInt32.toNat, BitVec.toNat_ofNatLt]

theorem upChar_toNat (c : Char) :
    (upChar c).toNat = if 97 ≤ c.toNat ∧ c.toNat ≤ 122 then c.toNat - 32 else c.toNat := by
  unfold upChar
  split
  · next h => exact charOfNat_toNat _ (Or.inl (by omega))
  · rfl

theorem upChar_idem (c : Char) : upChar (upChar c) = upChar c := by
  have h1 := upChar_toNat c
  have h2 : ¬(97 ≤ (upChar c).toNat ∧ (upChar c).toNat ≤ 122) := by
    split at h1 <;> omega
  rw [upChar, if_neg h2]

theorem goIsSep_upChar (c : Char) : goIsSep (upChar c) = goIsSep c := by
  have h := upChar_toNat c
  unfold goIsSep
  split at h
  · rw [h, if_pos (by omega), if_pos (by omega)]
  · rw [h]

theorem isStripChar_upChar (c : Char) : isStripChar (upChar c) = isStripChar c := by
  have h := upChar_toNat c
  unfold isStripChar
  split at h
  · rw [h, if_neg (by omega), if_neg (by omega)]
  · rw [h]

theorem titleChars_idem : ∀ (l : List Char) (b : Bool),
    titleChars b (titleChars b l) = titleChars b l
  | [], _ => rfl
  | c :: cs, b => by
    cases b <;>
      simp [titleChars, titleChars_idem cs (goIsSep c), upChar_idem, goIsSep_upChar]

theorem titleChars_noStrip : ∀ (l : List Char) (b : Bool),
    (∀ c ∈ l, isStripChar c = false) → ∀ c ∈ titleChars b l, isStripChar c = false
  | [], _, _ => by simp [titleChars]
  | c :: cs, b, h => by
    intro d hd
    rw [titleChars] at hd
    rcases List.mem_cons.mp hd with h1 | h1
    · subst h1
      have hc := h c (List.mem_cons_self ..)
      cases b
      · simpa using hc
      · rw [if_pos rfl, isStripChar_upChar]
        exact hc
    · exact titleChars_noStrip cs (goIsSep c) (fun x hx => h x (List.mem_cons_of_mem _ hx)) d h1

theorem stripPunct_id (s : String) (h : ∀ c ∈ s.data, isStripChar c = false) :
    stripPunct s = s := by
  unfold stripPunct
  rw [List.filter_eq_self.mpr (fun a ha => by simp [h a ha])]

theorem stringsTitle_idem (s : String) : stringsTitle (stringsTitle s) = stringsTitle s := by
  exact congrArg String.mk (titleChars_idem s.data true)

/-- The title-cased form of any string differs from any word starting with
a lowercase ASCII letter: the first character of the output is never
lowercase. -/
theorem stringsTitle_ne (s w : String) (c0 : Char) (cw : List Char)
    (hw : w.data = c0 :: cw) (hc0 : 97 ≤ c0.toNat ∧ c0.toNat ≤ 122) :
    stringsTitle s ≠ w := by
  match s with
  | ⟨[]⟩ =>
    intro hd
    rw [← hd] at hw
    simp [stringsTitle, titleChars] at hw
  | ⟨c :: cs⟩ =>
    intro hd
    have hdata : upChar c :: titleChars (goIsSep c) cs = c0 :: cw := by
      have h0 := congrArg String.data hd
      rw [hw] at h0
      simpa [stringsTitle, titleChars] using h0
    injection hdata with h1 _
    have h2 := upChar_toNat c
    rw [h1] at h2
    split at h2 <;> omega

theorem goNameFromStrings_single (s : String) : goNameFromStrings [s] = goNameToken s := by
  simp [goNameFromStrings]

theorem goNameToken_title (s : String) (h : ∀ c ∈ s.data, isStripChar c = false) :
    goNameToken (stringsTitle s) = stringsTitle s := by
  have hns : ∀ c ∈ (stringsTitle s).data, isStripChar c = false :=
    titleChars_noStrip s.data true h
  have hstrip := stripPunct_id _ hns
  unfold goNameToken
  rw [hstrip, if_neg (stringsTitle_ne s "id" 'i' ['d'] rfl (by decide)),
    if_neg (stringsTitle_ne s "url" 'u' ['r', 'l'] rfl (by decide)),
    if_neg (stringsTitle_ne s "api" 'a' ['p', 'i'] rfl (by decide))]
  exact stringsTitle_idem s

/-! ### Claims about the identifier normalizer -/

/-- C7 counterexample: the override-table match of `goNameFromStrings` is
case-sensitive in the code: the part `"Id"` strips to `"Id"`, misses the
`case "id"` arm and is title-cased to `"Id"`, not replaced by `"ID"` as
the claim's case-insensitive table requires. -/
theorem claim7_counterexample :
    goNameFromStrings ["Id"] = "Id" ∧ ("Id" : String) ≠ "ID" := by
  constructor
  · decide
  · decide

/-- C7 as amended: for every input part the normalizer strips the
punctuation set and then matches the stripped token case-sensitively
(exact equality) against the override table of the lowercase tokens
`id`, `url`, `api`, replacing the whole token on a match and title-casing
otherwise; so `"id"` normalizes to `"ID"`, `"ID"` stays `"ID"` (via
title-case), but `"Id"` normalizes to `"Id"`. -/
theorem claim7_casesensitive_override :
    (∀ parts : List String, goNameFromStrings parts = normalizeAmendedSpec parts) ∧
    goNameFromStrings ["id"] = "ID" ∧ goNameFromStrings ["ID"] = "ID" ∧
    goNameFromStrings ["Id"] = "Id" := by
  refine ⟨fun parts => ?_, by decide, by decide, by decide⟩
  rfl

/-- C8: the normalizer is a pure function of its argument list, and on a
single part containing none of the stripped punctuation characters it is
idempotent. -/
theorem claim8_normalizer_deterministic_idempotent :
    (∀ parts : List String, goNameFromStrings parts = goNameFromStrings parts) ∧
    (∀ s : String, (∀ c ∈ s.data, isStripChar c = false) →
      goNameFromStrings [goNameFromStrings [s]] = goNameFromStrings [s]) := by
  refine ⟨fun _ => rfl, fun s h => ?_⟩
  rw [goNameFromStrings_single, goNameFromStrings_single]
  have hstrip := stripPunct_id s h
  by_cases h1 : s = "id"
  · subst h1
    decide
  by_cases h2 : s = "url"
  · subst h2
    decide
  by_cases h3 : s = "api"
  · subst h3
    decide
  have htok : goNameToken s = stringsTitle s := by
    unfold goNameToken
    rw [hstrip, if_neg h1, if_neg h2, if_neg h3]
  rw [htok]
  exact goNameToken_title s h

/-- C8 witness at the concrete punctuation-free part `"session"`. -/
theorem claim8_normalizer_deterministic_idempotent_witness :
    goNameFromStrings [goNameFromStrings ["session"]] = goNameFromStrings ["session"] :=
  claim8_normalizer_deterministic_idempotent.2 "session" (by decide)

/-! ### Lemmas about `mapExcept`, pointer resolution and `Parse` -/

theorem mapExcept_ok_length {α β ε : Type} (f : α → Except ε β) :
    ∀ (l : List α) (bs : List β), mapExcept f l = .ok bs → bs.length = l.length
  | [], bs, h => by
    simp only [mapExcept] at h
    cases h
    rfl
  | x :: xs, bs, h => by
    cases hfx : f x with
    | error e => simp [mapExcept, hfx] at h
    | ok b =>
      cases hxs : mapExcept f xs with
      | error e => simp [mapExcept, hfx, hxs] at h
      | ok bs2 =>
        simp only [mapExcept, hfx, hxs] at h
        cases h
        simpa using mapExcept_ok_length f xs bs2 hxs

theorem mapExcept_ok_get? {α β ε : Type} (f : α → Except ε β) :
    ∀ (l : List α) (bs : List β), mapExcept f l = .ok bs →
      ∀ (i : Nat) (a : α), l.get? i = some a → ∃ b, bs.get? i = some b ∧ f a = .ok b
  | [], _, _, i, a, ha => by simp [List.get?] at ha
  | x :: xs, bs, h, i, a, ha => by
    cases hfx : f x with
    | error e => simp [mapExcept, hfx] at h
    | ok b =>
      cases hxs : mapExcept f xs with
      | error e => simp [mapExcept, hfx, hxs] at h
      | ok bs2 =>
        simp only [mapExcept, hfx, hxs] at h
        cases h
        cases i with
        | zero =>
          cases ha
          exact ⟨b, rfl, hfx⟩
        | succ j => exact mapExcept_ok_get? f xs bs2 hxs j a ha

theorem mapExcept_ok_mem {α β ε : Type} (f : α → Except ε β) :
    ∀ (l : List α) (bs : List β), mapExcept f l = .ok bs →
      ∀ b ∈ bs, ∃ a ∈ l, f a = .ok b
  | [], bs, h => by
    simp only [mapExcept] at h
    cases h
    simp
  | x :: xs, bs, h => by
    cases hfx : f x with
    | error e => simp [mapExcept, hfx] at h
    | ok b0 =>
      cases hxs : mapExcept f xs with
      | error e => simp [mapExcept, hfx, hxs] at h
      | ok bs2 =>
        simp only [mapExcept, hfx, hxs] at h
        cases h
        intro b hb
        rcases List.mem_cons.mp hb with rfl | hb2
        · exact ⟨x, List.mem_cons_self .., hfx⟩
        · obtain ⟨a, ha, hfa⟩ := mapExcept_ok_mem f xs bs2 hxs b hb2
          exact ⟨a, List.mem_cons_of_mem _ ha, hfa⟩

theorem mapExcept_ok_forall {α β ε : Type} (f : α → Except ε β) :
    ∀ (l : List α) (bs : List β), mapExcept f l = .ok bs →
      ∀ a ∈ l, ∃ b, f a = .ok b
  | [], _, _ => by simp
  | x :: xs, bs, h => by
    cases hfx : f x with
    | error e => simp [mapExcept, hfx] at h
    | ok b0 =>
      cases hxs : mapExcept f xs with
      | error e => simp [mapExcept, hfx, hxs] at h
      | ok bs2 =>
        intro a ha
        rcases List.mem_cons.mp ha with rfl | ha2
        · exact ⟨b0, hfx⟩
        · exact mapExcept_ok_forall f xs bs2 hxs a ha2

theorem resolvePointerToSchema_dangling (p : String) (idx : Index)
    (hp : p ≠ "") (hl : idx.lookup p = none) :
    resolvePointerToSchema p idx =
      .error ("jsonmsg: " ++ p ++ " does not exist in index") := by
  unfold resolvePointerToSchema
  rw [if_neg hp, hl]

theorem resolvePointerToSchema_ok (p : String) (idx : Index) (b : Option SchemaNode)
    (h : resolvePointerToSchema p idx = .ok b) :
    b = (if p = "" then none else idx.lookup p) ∧
    (p ≠ "" → (idx.lookup p).isSome = true) := by
  unfold resolvePointerToSchema at h
  by_cases hp : p = ""
  · rw [if_pos hp] at h
    cases h
    simp [hp]
  · rw [if_neg hp] at h
    cases hl : idx.lookup p with
    | none => rw [hl] at h; cases h
    | some s =>
      rw [hl] at h
      cases h
      simp [hp, hl]

theorem Parse_ok_destruct (doc : RawDoc) (spec : Spec) (h : Parse doc = .ok spec) :
    ∃ msgs, buildMessages doc.Definitions doc.Messages = .ok msgs ∧
      spec.Messages = msgs ∧ spec.GroupedMessages = buildGrouped msgs ∧
      spec.Definitions = doc.Definitions ∧ spec.Raw = doc ∧
      spec.Endpoints = doc.Endpoints.map (fun ku => (ku.1, ku.2 ++ "/" ++ ku.1)) := by
  unfold Parse at h
  cases hbm : buildMessages doc.Definitions doc.Messages with
  | error e => rw [hbm] at h; cases h
  | ok msgs =>
    rw [hbm] at h
    cases h
    exact ⟨msgs, rfl, rfl, rfl, rfl, rfl, rfl⟩

theorem buildMessage_ok (idx : List (String × SchemaNode)) (k : String) (rm : RawMsg)
    (m : Message) (h : buildMessage idx k rm = .ok m) :
    resolvePointerToSchema rm.In idx = .ok m.InSchema ∧
    mapExcept (fun p => resolvePointerToSchema p idx) rm.Outs = .ok m.OutSchemas ∧
    m.Msg = k ∧ m.Name = goNameFromStrings [k] ∧ m.In = rm.In ∧ m.Outs = rm.Outs ∧
    m.SpecDefs = idx ∧ m.Group = rm.Group := by
  unfold buildMessage at h
  cases h1 : resolvePointerToSchema rm.In idx with
  | error e => rw [h1] at h; cases h
  | ok inS =>
    rw [h1] at h
    cases h2 : mapExcept (fun p => resolvePointerToSchema p idx) rm.Outs with
    | error e => rw [h2] at h; cases h
    | ok outSs =>
      rw [h2] at h
      cases h
      exact ⟨rfl, rfl, rfl, rfl, rfl, rfl, rfl, rfl⟩

theorem buildMessages_fn_ok (idx : List (String × SchemaNode)) (km : String × RawMsg)
    (b : String × Message)
    (h : (match buildMessage idx km.1 km.2 with
          | .error e => .error e
          | .ok m => .ok (km.1, m) : Except String (String × Message)) = .ok b) :
    b.1 = km.1 ∧ buildMessage idx km.1 km.2 = .ok b.2 := by
  cases hb : buildMessage idx km.1 km.2 with
  | error e => rw [hb] at h; cases h
  | ok m => rw [hb] at h; cases h; exact ⟨rfl, rfl⟩

theorem buildMessages_ok_mem (idx : List (String × SchemaNode))
    (l : List (String × RawMsg)) (bs : List (String × Message))
    (h : buildMessages idx l = .ok bs) (k : String) (m : Message)
    (hm : (k, m) ∈ bs) : ∃ rm, (k, rm) ∈ l ∧ buildMessage idx k rm = .ok m := by
  obtain ⟨km, hkm, hg⟩ := mapExcept_ok_mem _ l bs h (k, m) hm
  obtain ⟨h1, h2⟩ := buildMessages_fn_ok idx km (k, m) hg
  have h1' : k = km.1 := by simpa using h1
  subst h1'
  exact ⟨km.2, by simpa using hkm, by simpa using h2⟩

theorem buildMessages_ok_forall (idx : List (String × SchemaNode))
    (l : List (String × RawMsg)) (bs : List (String × Message))
    (h : buildMessages idx l = .ok bs) (k : String) (rm : RawMsg)
    (hm : (k, rm) ∈ l) : ∃ m, buildMessage idx k rm = .ok m := by
  obtain ⟨b, hb⟩ := mapExcept_ok_forall _ l bs h (k, rm) hm
  obtain ⟨-, h2⟩ := buildMessages_fn_ok idx (k, rm) b hb
  exact ⟨b.2, h2⟩

theorem buildMessages_keys (idx : List (String × SchemaNode))
    (l : List (String × RawMsg)) (bs : List (String × Message))
    (h : buildMessages idx l = .ok bs) : bs.map Prod.fst = l.map Prod.fst := by
  apply List.ext
  intro i
  rw [List.get?_map, List.get?_map]
  cases hl : l.get? i with
  | some a =>
    obtain ⟨b, hb, hgb⟩ := mapExcept_ok_get? _ l bs h i a hl
    obtain ⟨h1, -⟩ := buildMessages_fn_ok idx a b hgb
    rw [hb]
    simp [h1]
  | none =>
    have hlen := mapExcept_ok_length _ l bs h
    have h1 : l.length ≤ i := List.get?_eq_none.mp hl
    have hbs : bs.get? i = none := List.get?_eq_none.mpr (by omega)
    rw [hbs]
    rfl

/-! ### Lemmas about the group index -/

theorem lookup_append {β : Type} (k : String) :
    ∀ (l1 l2 : List (String × β)), (l1 ++ l2).lookup k =
      (match l1.lookup k with
       | some v => some v
       | none => l2.lookup k)
  | [], _ => rfl
  | (a, b) :: l1, l2 => by
    by_cases hak : k = a
    · simp [List.lookup, hak]
    · have hb : (k == a) = false := beq_eq_false_iff_ne.mpr hak
      simp [List.lookup, hb, lookup_append k l1 l2]

theorem lookupGrouped_insert_self :
    ∀ (gm : List (String × List (String × Message))) (g k : String) (m : Message),
      freshKey gm k → lookupGrouped (insertGrouped gm g k m) g k = some m
  | [], g, k, m, _ => by simp [insertGrouped, lookupGrouped, List.lookup]
  | (g0, ms) :: rest, g, k, m, hf => by
    by_cases hg : g0 = g
    · subst hg
      have hnone : ms.lookup k = none := hf g0 ms (List.mem_cons_self ..)
      simp [insertGrouped, lookupGrouped, List.lookup, lookup_append, hnone]
    · have hgb : (g == g0) = false := beq_eq_false_iff_ne.mpr (fun hx => hg hx.symm)
      have hrec := lookupGrouped_insert_self rest g k m
        (fun g' ms' hm' => hf g' ms' (List.mem_cons_of_mem _ hm'))
      simpa [insertGrouped, if_neg hg, lookupGrouped, List.lookup, hgb] using hrec

theorem lookupGrouped_insert_ne :
    ∀ (gm : List (String × List (String × Message))) (g0 k0 : String) (m0 : Message)
      (g k : String), k ≠ k0 →
      lookupGrouped (insertGrouped gm g0 k0 m0) g k = lookupGrouped gm g k
  | [], g0, k0, m0, g, k, hk => by
    have hkb : (k == k0) = false := beq_eq_false_iff_ne.mpr hk
    by_cases hg : g = g0
    · simp [insertGrouped, lookupGrouped, List.lookup, hg, hkb]
    · have hgb : (g == g0) = false := beq_eq_false_iff_ne.mpr hg
      simp [insertGrouped, lookupGrouped, List.lookup, hgb]
  | (g1, ms) :: rest, g0, k0, m0, g, k, hk => by
    have hkb : (k == k0) = false := beq_eq_false_iff_ne.mpr hk
    by_cases h1 : g1 = g0
    · subst h1
      by_cases hg : g = g1
      · subst hg
        simp only [insertGrouped, if_pos rfl, lookupGrouped, List.lookup,
          beq_self_eq_true, lookup_append, hkb]
        cases hms : ms.lookup k <;> simp [List.lookup, hkb]
      · have hgb : (g == g1) = false := beq_eq_false_iff_ne.mpr hg
        simp [insertGrouped, lookupGrouped, List.lookup, hgb]
    · by_cases hg : g = g1
      · subst hg
        simp [insertGrouped, if_neg h1, lookupGrouped, List.lookup]
      · have hgb : (g == g1) = false := beq_eq_false_iff_ne.mpr hg
        have hrec := lookupGrouped_insert_ne rest g0 k0 m0 g k hk
        simpa [insertGrouped, if_neg h1, lookupGrouped, List.lookup, hgb] using hrec

theorem freshKey_insert (g0 k0 : String) (m0 : Message) (k : String) (hk : k ≠ k0) :
    ∀ (gm : List (String × List (String × Message))),
      freshKey gm k → freshKey (insertGrouped gm g0 k0 m0) k
  | [], _ => by
    intro g ms hm
    have hkb : (k == k0) = false := beq_eq_false_iff_ne.mpr hk
    simp only [insertGrouped, List.mem_singleton] at hm
    injection hm with h1 h2
    subst h2
    simp [List.lookup, hkb]
  | (g1, ms1) :: rest, hf => by
    intro g ms hm
    have hkb : (k == k0) = false := beq_eq_false_iff_ne.mpr hk
    have hfrest : freshKey rest k := fun g' ms' hm' => hf g' ms' (List.mem_cons_of_mem _ hm')
    by_cases h1 : g1 = g0
    · subst h1
      simp only [insertGrouped, if_pos rfl] at hm
      rcases List.mem_cons.mp hm with he | hm2
      · injection he with h2 h3
        subst h3
        rw [lookup_append, hf g1 ms1 (List.mem_cons_self ..)]
        simp [List.lookup, hkb]
      · exact hf g ms (List.mem_cons_of_mem _ hm2)
    · simp only [insertGrouped, if_neg h1] at hm
      rcases List.mem_cons.mp hm with he | hm2
      · injection he with h2 h3
        rw [h3]
        exact hf g1 ms1 (List.mem_cons_self ..)
      · exact freshKey_insert g0 k0 m0 k hk rest hfrest g ms hm2

theorem buildGrouped_foldl_preserve :
    ∀ (msgs : List (String × Message)) (gm : List (String × List (String × Message)))
      (g k : String), (∀ km ∈ msgs, km.1 ≠ k) →
      lookupGrouped (msgs.foldl (fun gm km => insertGrouped gm km.2.Group km.1 km.2) gm) g k =
        lookupGrouped gm g k
  | [], _, _, _, _ => rfl
  | km0 :: rest, gm, g, k, h => by
    rw [List.foldl_cons]
    rw [buildGrouped_foldl_preserve rest _ g k (fun km hm => h km (List.mem_cons_of_mem _ hm))]
    exact lookupGrouped_insert_ne gm km0.2.Group km0.1 km0.2 g k
      (h km0 (List.mem_cons_self ..)).symm

theorem buildGrouped_foldl_lookup :
    ∀ (msgs : List (String × Message)) (gm : List (String × List (String × Message)))
      (k : String) (m : Message),
      (msgs.map Prod.fst).Nodup → freshKey gm k → (k, m) ∈ msgs →
      lookupGrouped (msgs.foldl (fun gm km => insertGrouped gm km.2.Group km.1 km.2) gm)
        m.Group k = some m
  | [], _, _, m, _, _, hm => absurd hm (List.not_mem_nil _)
  | (k0, m0) :: rest, gm, k, m, hnd, hf, hm => by
    have hnd' : k0 ∉ rest.map Prod.fst ∧ (rest.map Prod.fst).Nodup :=
      List.nodup_cons.mp hnd
    rw [List.foldl_cons]
    rcases List.mem_cons.mp hm with he | hm2
    · injection he with h1 h2
      subst h1
      subst h2
      rw [buildGrouped_foldl_preserve rest _ m.Group k ?hrest]
      · exact lookupGrouped_insert_self gm m.Group k m hf
      case hrest =>
        intro km hkm hx
        exact hnd'.1 (hx ▸ List.mem_map_of_mem Prod.fst hkm)
    · have hk0 : k ≠ k0 := by
        intro hx
        have hmem : k ∈ rest.map Prod.fst := List.mem_map_of_mem Prod.fst hm2
        rw [hx] at hmem
        exact hnd'.1 hmem
      exact buildGrouped_foldl_lookup rest _ k m hnd'.2
        (freshKey_insert m0.Group k0 m0 k hk0 gm hf) hm2

/-! ### Claims about pointer resolution and `Parse` -/

/-- C3: resolving the empty pointer yields no schema and no error;
resolving a non-empty pointer absent from the index fails with an error
carrying the offending pointer string; a non-empty pointer present in the
index resolves to its definition; and a dangling non-empty pointer in any
message's `In` or `Outs` makes the whole `Parse` fail, so the failure is
never observable at runtime. -/
theorem claim3_pointer_resolution :
    (∀ idx : Index, resolvePointerToSchema "" idx = .ok none) ∧
    (∀ (p : String) (idx : Index), p ≠ "" → idx.lookup p = none →
      resolvePointerToSchema p idx =
        .error ("jsonmsg: " ++ p ++ " does not exist in index")) ∧
    (∀ (p : String) (idx : Index) (s : SchemaNode), p ≠ "" → idx.lookup p = some s →
      resolvePointerToSchema p idx = .ok (some s)) ∧
    (∀ (doc : RawDoc) (k : String) (rm : RawMsg), (k, rm) ∈ doc.Messages →
      ((rm.In ≠ "" ∧ doc.Definitions.lookup rm.In = none) ∨
        (∃ p ∈ rm.Outs, p ≠ "" ∧ doc.Definitions.lookup p = none)) →
      (Parse doc).isOk = false) := by
  refine ⟨fun idx => rfl, ?_, ?_, ?_⟩
  · intro p idx hp hl
    exact resolvePointerToSchema_dangling p idx hp hl
  · intro p idx s hp hl
    unfold resolvePointerToSchema
    rw [if_neg hp, hl]
  · intro doc k rm hm hbad
    cases hP : Parse doc with
    | error e => rfl
    | ok spec =>
      exfalso
      obtain ⟨msgs, hbm, -, -, -, -, -⟩ := Parse_ok_destruct doc spec hP
      obtain ⟨m, hbuild⟩ := buildMessages_ok_forall _ _ _ hbm k rm hm
      obtain ⟨hin, houts, -, -, -, -, -, -⟩ := buildMessage_ok _ _ _ _ hbuild
      rcases hbad with ⟨hne, hnl⟩ | ⟨p, hp, hne, hnl⟩
      · rw [resolvePointerToSchema_dangling rm.In doc.Definitions hne hnl] at hin
        cases hin
      · obtain ⟨b, hb⟩ := mapExcept_ok_forall _ rm.Outs m.OutSchemas houts p hp
        rw [resolvePointerToSchema_dangling p doc.Definitions hne hnl] at hb
        cases hb

/-- C3 witness: the empty pointer, a missing pointer, a present pointer,
and a document whose message carries a dangling input pointer. -/
theorem claim3_pointer_resolution_witness :
    resolvePointerToSchema "" exampleIndex = .ok none ∧
    resolvePointerToSchema "#/definitions/missing" exampleIndex =
      .error ("jsonmsg: " ++ "#/definitions/missing" ++ " does not exist in index") ∧
    resolvePointerToSchema "#/definitions/session" exampleIndex = .ok (some ⟨2⟩) ∧
    (Parse exampleDanglingDoc).isOk = false :=
  ⟨claim3_pointer_resolution.1 exampleIndex,
   claim3_pointer_resolution.2.1 "#/definitions/missing" exampleIndex
     (by decide) (by decide),
   claim3_pointer_resolution.2.2.1 "#/definitions/session" exampleIndex ⟨2⟩
     (by decide) (by decide),
   claim3_pointer_resolution.2.2.2 exampleDanglingDoc "findUser"
     { In := "#/definitions/missing" } (by decide)
     (Or.inl ⟨by decide, by decide⟩)⟩

/-- C6: for every document that parses successfully, re-parsing the
machine-readable self-description (the canonical re-serialization of the
retained raw bytes) succeeds and yields a spec whose endpoint table maps
the same protocols to the same URLs as the original. -/
theorem claim6_jsonspec_reparse_fixed_point (doc : RawDoc) (spec : Spec)
    (h : Parse doc = .ok spec) :
    ∃ spec2, Parse (JSONSpec spec) = .ok spec2 ∧ spec2.Endpoints = spec.Endpoints := by
  obtain ⟨msgs, hbm, hmsgs, hgm, hdefs, hraw, hep⟩ := Parse_ok_destruct doc spec h
  refine ⟨spec, ?_, rfl⟩
  unfold JSONSpec
  rw [hraw]
  exact h

/-- C6 witness at the concrete `exampleDoc`. -/
theorem claim6_jsonspec_reparse_fixed_point_witness :
    ∃ spec2, Parse (JSONSpec exampleSpec) = .ok spec2 ∧
      spec2.Endpoints = exampleSpec.Endpoints :=
  claim6_jsonspec_reparse_fixed_point exampleDoc exampleSpec rfl

/-- C10: for every successfully parsed document with distinct message keys
and every entry `(k, m)` of the resulting message table: `Msg` is the key,
`Name` is the normalized key, the spec back-reference exposes the owning
spec's definitions index, `OutSchemas` aligns with `Outs` entrywise (the
`i`-th schema is what the index holds at the `i`-th pointer, every
non-empty pointer being present), and the message is registered in the
group index under its group label and key. -/
theorem claim10_parse_message_invariants (doc : RawDoc) (spec : Spec)
    (k : String) (m : Message)
    (hnd : (doc.Messages.map Prod.fst).Nodup)
    (hP : Parse doc = .ok spec)
    (hm : (k, m) ∈ spec.Messages) :
    m.Msg = k ∧
    m.Name = goNameFromStrings [k] ∧
    m.SpecDefs = spec.Definitions ∧
    m.OutSchemas.length = m.Outs.length ∧
    (∀ (i : Nat) (p : String), m.Outs.get? i = some p →
      m.OutSchemas.get? i = some (if p = "" then none else spec.Definitions.lookup p) ∧
      (p ≠ "" → (spec.Definitions.lookup p).isSome = true)) ∧
    lookupGrouped spec.GroupedMessages m.Group k = some m := by
  obtain ⟨msgs, hbm, hmsgs, hgm, hdefs, hraw, hep⟩ := Parse_ok_destruct doc spec hP
  rw [hmsgs] at hm
  obtain ⟨rm, hrm, hbuild⟩ := buildMessages_ok_mem _ _ _ hbm k m hm
  obtain ⟨hin, houts, hmsg, hname, hIn, hOuts, hsd, hgroup⟩ := buildMessage_ok _ _ _ _ hbuild
  refine ⟨hmsg, hname, by rw [hsd, hdefs], ?_, ?_, ?_⟩
  · rw [hOuts]
    exact mapExcept_ok_length _ _ _ houts
  · intro i p hpi
    have hpi2 : rm.Outs.get? i = some p := by rw [← hOuts]; exact hpi
    obtain ⟨b, hb, hres⟩ := mapExcept_ok_get? _ _ _ houts i p hpi2
    obtain ⟨hbval, hsome⟩ := resolvePointerToSchema_ok p doc.Definitions b hres
    constructor
    · rw [hb, hbval, hdefs]
    · intro hne
      rw [hdefs]
      exact hsome hne
  · rw [hgm]
    unfold buildGrouped
    refine buildGrouped_foldl_lookup msgs [] k m ?_
      (fun g ms hms => absurd hms (List.not_mem_nil _)) hm
    rw [buildMessages_keys _ _ _ hbm]
    exact hnd

/-- C10 witness at the concrete `exampleDoc`. -/
theorem claim10_parse_message_invariants_witness :
    exampleMessage.Msg = "loginWithCredentials" ∧
    exampleMessage.Name = goNameFromStrings ["loginWithCredentials"] ∧
    exampleMessage.SpecDefs = exampleSpec.Definitions ∧
    exampleMessage.OutSchemas.length = exampleMessage.Outs.length ∧
    (∀ (i : Nat) (p : String), exampleMessage.Outs.get? i = some p →
      exampleMessage.OutSchemas.get? i =
        some (if p = "" then none else exampleSpec.Definitions.lookup p) ∧
      (p ≠ "" → (exampleSpec.Definitions.lookup p).isSome = true)) ∧
    lookupGrouped exampleSpec.GroupedMessages exampleMessage.Group "loginWithCredentials" =
      some exampleMessage :=
  claim10_parse_message_invariants exampleDoc exampleSpec "loginWithCredentials"
    exampleMessage (by decide) rfl (by decide)

end Jsonmsg
